import Mathlib

/-!
Verification development for the pretix roomsharing plugin
(`pretix_roomsharing`): a shallow embedding of the room capacity and
allocation engine (models.py, views.py, checkoutflow.py, signals.py)
together with theorems about its behaviour.

The persistent state (Django ORM rows of one event) is modelled as lists
of records in `EventState`; every database query of the source is
translated into a pure function over that state.
-/

/-- Order status, following `pretix.base.models.Order`
(`STATUS_PENDING`, `STATUS_PAID`, `STATUS_EXPIRED`, `STATUS_CANCELED`). -/
inductive OrderStatus
  | pending
  | paid
  | expired
  | canceled
deriving DecidableEq, Repr

/-- A cart position (`pretix.base.models.CartPosition`): an unconfirmed
cart line item with an expiry time, keyed by a cart session id. -/
structure CartPosition where
  cartId : String
  item : Nat
  expires : Int
deriving DecidableEq, Repr

/-- A confirmed order (`pretix.base.models.Order`), with the item ids of
its positions inlined. -/
structure Order where
  id : Nat
  code : String
  status : OrderStatus
  items : List Nat
deriving DecidableEq, Repr

/-- `RoomDefinition` from models.py: a room-type quota with eligible
items, per-room capacity and a maximum number of rooms.  The field
`extra_capacity` is not declared in the (stale) models.py under src/ but
is required by RoomDefinitionForm in forms.py and by the randomizer;
Modelled from the spec: an optional extra-capacity count per room. -/
structure RoomDefinition where
  id : Nat
  name : String
  items : List Nat
  capacity : Nat
  extra_capacity : Nat
  max_rooms : Nat
deriving DecidableEq, Repr

/-- `Room` from models.py.  The two flags are not declared in the
(stale) models.py under src/ but are read and written by views.py;
Modelled from the spec: `disable_random_extra` opts the room out of
automatic overflow, `optout_random_extra` is the host-level opt-out that
is effective only when the event's host-control setting is enabled. -/
structure Room where
  id : Nat
  definitionId : Nat
  name : String
  password : String
  disable_random_extra : Bool
  optout_random_extra : Bool
deriving DecidableEq, Repr

/-- `OrderRoom` from models.py: a membership linking an order or a cart
session id to a room, with an admin flag. -/
structure OrderRoom where
  id : Nat
  order : Option Nat
  cartId : Option String
  roomId : Nat
  is_admin : Bool
deriving DecidableEq, Repr

/-- The persistent state of one event: all rows visible to the plugin,
the current time (`now()`), the event setting
`roomsharing_room_host_random_control`, and a fresh-primary-key
counter. -/
structure EventState where
  definitions : List RoomDefinition
  rooms : List Room
  orderRooms : List OrderRoom
  orders : List Order
  cartPositions : List CartPosition
  now : Int
  hostRandomControl : Bool
  nextId : Nat
deriving DecidableEq, Repr

def findOrder (st : EventState) (oid : Nat) : Option Order :=
  st.orders.find? (fun o => o.id == oid)

def findDef (st : EventState) (did : Nat) : Option RoomDefinition :=
  st.definitions.find? (fun d => d.id == did)

def findRoom (st : EventState) (rid : Nat) : Option Room :=
  st.rooms.find? (fun r => r.id == rid)

/-- The eligible item ids of a room definition, looked up by id
(empty if the definition row is absent). -/
def defItems (st : EventState) (did : Nat) : List Nat :=
  ((findDef st did).map (fun d => d.items)).getD []

/-- `OrderRoom.is_valid` (models.py:98-102): a cart-scoped membership is
valid iff some cart position of its cart has not expired; an order-scoped
membership is valid iff its order is pending or paid. -/
def OrderRoom.is_valid (st : EventState) (m : OrderRoom) : Bool :=
  match m.cartId with
  | some cid => st.cartPositions.any (fun c => c.cartId == cid && st.now < c.expires)
  | none =>
    match m.order with
    | some oid =>
      match findOrder st oid with
      | some o => o.status == OrderStatus.pending || o.status == OrderStatus.paid
      | none => false
    | none => false

/-- The validity disjunction used by `Room.get_valid_room_orders`
(models.py:76-79) and `RoomDefinition.get_valid_room_count`
(models.py:27-30): either the membership is cart-scoped and an unexpired
cart position of the same cart holds an item of `items`, or it is
order-scoped with a pending or paid order. -/
def roomMemberValid (st : EventState) (items : List Nat) (m : OrderRoom) : Bool :=
  (match m.cartId with
   | some cid =>
     st.cartPositions.any (fun c =>
       c.cartId == cid && items.contains c.item && st.now < c.expires)
   | none => false)
  ||
  (match m.order with
   | some oid =>
     (findOrder st oid).any (fun o =>
       o.status == OrderStatus.pending || o.status == OrderStatus.paid)
   | none => false)

/-- `Room.get_valid_room_orders` (models.py:71-79): the memberships of
this room that are currently valid. -/
def Room.get_valid_room_orders (st : EventState) (r : Room) : List OrderRoom :=
  st.orderRooms.filter (fun m =>
    m.roomId == r.id && roomMemberValid st (defItems st r.definitionId) m)

/-- `Room.has_capacity` exactly as written in models.py:53-54: it takes
no `includeExtra` argument and compares the valid occupant count against
the definition's `max_rooms`. -/
def Room.has_capacity (st : EventState) (r : Room) : Bool :=
  (Room.get_valid_room_orders st r).length <
    (((findDef st r.definitionId).map (fun d => d.max_rooms)).getD 0)

/-- Modelled from the spec: the capacity predicate
`RoomHasCapacity(room, includeExtra)` that the callers in views.py
invoke as `room.has_capacity(False)` / `room.has_capacity(True)` but
which the stale models.py under src/ does not define — the valid
occupant count is strictly below `capacity` plus, when `includeExtra`
is set, `extra_capacity`. -/
def Room.has_capacityExtra (st : EventState) (r : Room) (includeExtra : Bool) : Bool :=
  (Room.get_valid_room_orders st r).length <
    (((findDef st r.definitionId).map (fun d => d.capacity)).getD 0)
    + (if includeExtra
       then (((findDef st r.definitionId).map (fun d => d.extra_capacity)).getD 0)
       else 0)

/-- `Room.is_valid` (models.py:81-82): the room has at least one valid
membership. -/
def Room.is_valid (st : EventState) (r : Room) : Bool :=
  (Room.get_valid_room_orders st r).length != 0

/-- `Room.touch` (models.py:56-69): delete the room when no valid
membership remains, otherwise promote the first valid membership to
admin when no valid membership is admin. -/
def Room.touch (st : EventState) (r : Room) : EventState :=
  match Room.get_valid_room_orders st r with
  | [] => { st with rooms := st.rooms.filter (fun x => x.id != r.id) }
  | v :: vs =>
    if (v :: vs).any (fun m => m.is_admin) then st
    else
      { st with orderRooms := st.orderRooms.map (fun m =>
          if m.id == v.id then { m with is_admin := true } else m) }

/-- `RoomDefinition.get_valid_room_count` (models.py:26-30): the number
of distinct rooms of this definition having at least one valid
membership. -/
def RoomDefinition.get_valid_room_count (st : EventState) (d : RoomDefinition) : Nat :=
  (((st.orderRooms.filter (fun m =>
      ((findRoom st m.roomId).map (fun r => r.definitionId) == some d.id)
      && roomMemberValid st d.items m)).map (fun m => m.roomId)).dedup).length

/-- `RoomDefinition.is_available` (models.py:32-33). -/
def RoomDefinition.is_available (st : EventState) (d : RoomDefinition) : Bool :=
  RoomDefinition.get_valid_room_count st d < d.max_rooms

/-- Deleting an `OrderRoom` row by primary key.  Django's `post_delete`
signal (signals.py:244-248, `post_order_room_delete`) then calls
`touch` on the membership's room. -/
def OrderRoom.deleteById (st : EventState) (pk : Nat) : EventState :=
  match st.orderRooms.find? (fun m => m.id == pk) with
  | none => st
  | some m =>
    let st1 := { st with orderRooms := st.orderRooms.filter (fun x => x.id != pk) }
    match findRoom st1 m.roomId with
    | some r => Room.touch st1 r
    | none => st1

/-- `RoomJoinForm.clean` (checkoutflow.py:100-147): require name and
password, look the room up by name, treat a room with no valid
membership as not found, and only then compare the password. -/
def RoomJoinForm.clean (st : EventState) (name password : String) :
    Except String Room :=
  if name == "" then Except.error "required"
  else if password == "" then Except.error "required"
  else
    match st.rooms.find? (fun r => r.name == name) with
    | none => Except.error "room_not_found"
    | some room =>
      if !Room.is_valid st room then Except.error "room_not_found"
      else if room.password != password then Except.error "pw_mismatch"
      else Except.ok room

/-- `RoomCreateForm.clean_name` (checkoutflow.py:47-59): a colliding
name (other than the form's own current room) is an error only when the
colliding room is itself valid. -/
def RoomCreateForm.clean_name (st : EventState) (current : Option Nat)
    (name : String) : Except String String :=
  if name == "" then Except.error "required"
  else
    match (st.rooms.filter (fun r =>
        r.name == name && r.id != current.getD 0)).head? with
    | some r =>
      if Room.is_valid st r then Except.error "duplicate_name"
      else Except.ok name
    | none => Except.ok name

/-- `RoomStep.post_room_join` (checkoutflow.py:195-224): joining with a
cart; a no-op when already in the target room, otherwise guarded by
`room.has_capacity()` (the zero-argument predicate of models.py). -/
def RoomStep.post_room_join (st : EventState) (cartId : String)
    (room : Room) : Except String EventState :=
  let existing := st.orderRooms.find? (fun m => m.cartId == some cartId)
  match existing with
  | some m =>
    if m.roomId == room.id then Except.ok st
    else if !Room.has_capacity st room then Except.error "room_full"
    else
      let st1 := { st with orderRooms := st.orderRooms.map (fun x =>
        if x.id == m.id then { x with roomId := room.id } else x) }
      Except.ok (Room.touch st1 room)
  | none =>
    if !Room.has_capacity st room then Except.error "room_full"
    else
      Except.ok { st with
        orderRooms := st.orderRooms ++
          [{ id := st.nextId, order := none, cartId := some cartId,
             roomId := room.id, is_admin := false }],
        nextId := st.nextId + 1 }

/-- `RoomStep.post_room_create` (checkoutflow.py:226-256): check the
definition's availability, drop a previous cart-scoped membership, then
either overwrite the password and definition of the existing room of
that name or create a fresh room, and join the cart as admin. -/
def RoomStep.post_room_create (st : EventState) (cartId : String)
    (prevJoin : Option Nat) (defId : Nat) (name password : String) :
    Except String EventState :=
  match findDef st defId with
  | none => Except.error "definition_not_found"
  | some d =>
    if !RoomDefinition.is_available st d then Except.error "no_more_rooms"
    else
      let st1 : EventState :=
        match prevJoin with
        | some pk => OrderRoom.deleteById st pk
        | none => st
      match st1.rooms.find? (fun r => r.name == name) with
      | some room =>
        let st2 := { st1 with rooms := st1.rooms.map (fun (r : Room) =>
          if r.id == room.id
          then { r with password := password, definitionId := d.id }
          else r) }
        Except.ok { st2 with
          orderRooms := st2.orderRooms ++
            [{ id := st2.nextId, order := none, cartId := some cartId,
               roomId := room.id, is_admin := true }],
          nextId := st2.nextId + 1 }
      | none =>
        let room : Room :=
          { id := st1.nextId, definitionId := d.id, name := name,
            password := password, disable_random_extra := false,
            optout_random_extra := false }
        let st2 := { st1 with
          rooms := st1.rooms ++ [room],
          nextId := st1.nextId + 1 }
        Except.ok { st2 with
          orderRooms := st2.orderRooms ++
            [{ id := st2.nextId, order := none, cartId := some cartId,
               roomId := room.id, is_admin := true }],
          nextId := st2.nextId + 1 }

/-- The room metadata recorded on an order
(signals.py:64-71, `order_meta_signal`). -/
structure OrderMeta where
  room_mode : Option String
  room_join : Option Nat
  room_create : Option Nat
deriving DecidableEq, Repr

/-- The eligible item ids of the room a membership points at. -/
def membershipRoomItems (st : EventState) (m : OrderRoom) : List Nat :=
  match findRoom st m.roomId with
  | some r => defItems st r.definitionId
  | none => []

/-- The `match room_mode` block of `room_validate_order`
(signals.py:276-288). -/
def roomModeCheck (meta : OrderMeta) : Except String Unit :=
  match meta.room_mode with
  | none =>
    if meta.room_create.isSome || meta.room_join.isSome
    then Except.error "mode_none" else Except.ok ()
  | some mode =>
    if mode == "join" then
      if meta.room_create.isSome || !meta.room_join.isSome
      then Except.error "mode_join" else Except.ok ()
    else if mode == "create" then
      if !meta.room_create.isSome || !meta.room_join.isSome
      then Except.error "mode_create" else Except.ok ()
    else if mode == "none" then
      if meta.room_create.isSome || meta.room_join.isSome
      then Except.error "mode_none" else Except.ok ()
    else Except.error "invalid_mode"

/-- `room_validate_order` (signals.py:251-288): the order-placement
consistency checker.  `positions` is the list of item ids of the cart
positions of the order being validated. -/
def room_validate_order (st : EventState) (meta : OrderMeta)
    (positions : List Nat) : Except String Unit :=
  let room : Option Room := meta.room_create.bind (fun pk => findRoom st pk)
  if room.any (fun r => !Room.is_valid st r) then Except.error "invalid_room"
  else
    let order_room : Option OrderRoom :=
      meta.room_join.bind (fun pk => st.orderRooms.find? (fun m => m.id == pk))
    match order_room with
    | some m =>
      if !OrderRoom.is_valid st m then Except.error "invalid_order_room"
      else if !positions.any (fun i => (membershipRoomItems st m).contains i)
      then Except.error "no_eligible_items"
      else roomModeCheck meta
    | none => roomModeCheck meta

/-- The generated unguessable room name / password of the randomizer
(views.py:110-111 uses `uuid.uuid4()`; modelled as a function of the
fresh primary-key counter). -/
def genName (n : Nat) : String :=
  "uuid-" ++ toString n

/-- `items = event.room_definitions.values("items").distinct()`
(views.py:88): the item ids eligible for any room definition of the
event. -/
def eventItems (st : EventState) : List Nat :=
  ((st.definitions.map (fun d => d.items)).flatten).dedup

/-- The room definitions matching an order (views.py:94-95 and 120-121):
the definitions of the order's position items.  The source first
restricts positions to `item__in=items` and then takes
`item__room_definitions`, which amounts to the definitions sharing an
item with the order. -/
def orderDefinitions (st : EventState) (ord : Order) : List RoomDefinition :=
  st.definitions.filter (fun d => ord.items.any (fun i => d.items.contains i))

/-- The shared loop body of `create_or_fill_rooms` (views.py:98-105) and
`fill_existing_rooms` (views.py:124-130): walk the working list of
rooms, remove every visited room that lacks capacity, and return the
first remaining room whose definition is among `defs`, together with the
pruned working list. -/
def scanRooms (st : EventState) (defs : List RoomDefinition) (extra : Bool) :
    List Room → List Room × Option Room
  | [] => ([], none)
  | r :: rest =>
    if !Room.has_capacityExtra st r extra then scanRooms st defs extra rest
    else if defs.any (fun d => d.id == r.definitionId) then (r :: rest, some r)
    else
      let p := scanRooms st defs extra rest
      (r :: p.1, p.2)

/-- Appending a fresh order-scoped `OrderRoom` row
(`OrderRoom.objects.create(order=..., room=..., is_admin=...)`,
views.py:142/151/162). -/
def addOrderRoom (st : EventState) (oid rid : Nat) (admin : Bool) : EventState :=
  { st with
    orderRooms := st.orderRooms ++
      [{ id := st.nextId, order := some oid, cartId := none,
         roomId := rid, is_admin := admin }],
    nextId := st.nextId + 1 }

/-- `create_or_fill_rooms` (views.py:93-116): first look for a room
created during this pass with remaining normal capacity and a matching
definition; otherwise create a brand-new room under the first available
definition.  Returns the updated state, the updated working list of
pass-created rooms, and the chosen room together with the
`created` flag. -/
def create_or_fill_rooms (st : EventState) (createdRooms : List Room)
    (ord : Order) : EventState × List Room × Option (Room × Bool) :=
  match scanRooms st (orderDefinitions st ord) false createdRooms with
  | (pruned, some r) => (st, pruned, some (r, false))
  | (pruned, none) =>
    match (orderDefinitions st ord).find? (fun d =>
        RoomDefinition.is_available st d) with
    | some d =>
      let room : Room :=
        { id := st.nextId, definitionId := d.id, name := genName st.nextId,
          password := genName st.nextId, disable_random_extra := false,
          optout_random_extra := false }
      ({ st with
         rooms := st.rooms ++ [room],
         nextId := st.nextId + 1 },
       pruned ++ [room], some (room, true))
    | none => (st, pruned, none)

/-- Pass 1 of `randomize_rooms` (views.py:138-144): for each unassigned
order run `create_or_fill_rooms` and record the membership with
`is_admin = created`; orders without a room are carried to the next
pass. -/
def pass1 : EventState → List Room → List Order →
    EventState × List Room × List Order
  | st, cr, [] => (st, cr, [])
  | st, cr, ord :: rest =>
    match create_or_fill_rooms st cr ord with
    | (st1, cr1, some rc) => pass1 (addOrderRoom st1 ord.id rc.1.id rc.2) cr1 rest
    | (st1, cr1, none) =>
      let p := pass1 st1 cr1 rest
      (p.1, p.2.1, ord :: p.2.2)

/-- Passes 2 and 3 of `randomize_rooms` (views.py:147-153 and 157-164):
for each carried order run `fill_existing_rooms` (whose loop is
`scanRooms`) over the working list and record a non-admin membership;
orders without a room are carried on. -/
def fillPass : EventState → List Room → Bool → List Order →
    EventState × List Room × List Order
  | st, ex, _, [] => (st, ex, [])
  | st, ex, extra, ord :: rest =>
    match scanRooms st (orderDefinitions st ord) extra ex with
    | (ex1, some room) => fillPass (addOrderRoom st ord.id room.id false) ex1 extra rest
    | (ex1, none) =>
      let p := fillPass st ex1 extra rest
      (p.1, p.2.1, ord :: p.2.2)

/-- The unassigned orders of the event (views.py:136-137): paid, with no
membership, holding at least one item eligible for some definition. -/
def unassignedOrders (st : EventState) : List Order :=
  st.orders.filter (fun o =>
    o.status == OrderStatus.paid
    && !(st.orderRooms.any (fun m => m.order == some o.id))
    && o.items.any (fun i => (eventItems st).contains i))

/-- The snapshot of rooms taken before pass 1 and consumed by pass 2
(views.py:135): all rooms with remaining normal capacity. -/
def pass2Snapshot (st : EventState) : List Room :=
  st.rooms.filter (fun r => Room.has_capacityExtra st r false)

/-- The snapshot of rooms consumed by pass 3 (views.py:155-156): every
room is re-checked with extra capacity included, except that for a room
with `disable_random_extra` set, or with `optout_random_extra` set while
host control is enabled, only normal capacity is considered. -/
def pass3Snapshot (st : EventState) : List Room :=
  st.rooms.filter (fun r =>
    Room.has_capacityExtra st r
      (!(r.disable_random_extra || (st.hostRandomControl && r.optout_random_extra))))

/-- State and carried orders after pass 1 (views.py:138-144), starting
from an empty working set of created rooms. -/
def randStage1 (st : EventState) : EventState × List Room × List Order :=
  pass1 st [] (unassignedOrders st)

/-- State and carried orders after pass 2 (views.py:146-153); the
working list is the pre-pass-1 snapshot. -/
def randStage2 (st : EventState) : EventState × List Room × List Order :=
  fillPass (randStage1 st).1 (pass2Snapshot st) false (randStage1 st).2.2

/-- State and carried orders after pass 3 (views.py:155-164). -/
def randStage3 (st : EventState) : EventState × List Room × List Order :=
  fillPass (randStage2 st).1 (pass3Snapshot (randStage2 st).1) true
    (randStage2 st).2.2

/-- The three passes of `randomize_rooms` (views.py:86-164): final state
and the orders still unassigned after pass 3. -/
def randPasses (st : EventState) : EventState × List Order :=
  ((randStage3 st).1, (randStage3 st).2.2)

/-- The exceptions escaping `randomize_rooms`: the `ValueError` from
the malformed format string at views.py:170, and
`RandomRoomAssignmentError` (views.py:55-58, raised at line 172). -/
inductive RandomizeError
  | valueError
  | randomRoomAssignmentError
deriving DecidableEq, Repr

/-- The failure-message formatting of views.py:170:
`_(f'Failed to find a room for:\n %(joined)') % {'joined': joined}`.
The format string ends in `%(joined)` with no conversion type, so
Python's `%` operator raises `ValueError: incomplete format` (Django's
lazy translation proxy applies `%` eagerly); the codes are never
interpolated into a message.  Modelled as `none`, the exception. -/
def formatFailureMessage (_codes : List String) : Option String :=
  none

/-- `randomize_rooms` (views.py:86-172): after the passes, if any order
is unassigned the code first builds the failure message (line 170);
that formatting raises `ValueError` before the `force` check at
line 171 is reached, so the `RandomRoomAssignmentError` raise at
line 172 is dead code and no report is ever delivered.  With every
order assigned, the new state is returned. -/
def randomize_rooms (st : EventState) (force : Bool) :
    Except RandomizeError EventState :=
  let p := randPasses st
  if p.2.length != 0 then
    match formatFailureMessage (p.2.map (fun o => o.code)) with
    | none => Except.error RandomizeError.valueError
    | some _ =>
      if !force then Except.error RandomizeError.randomRoomAssignmentError
      else Except.ok p.1
  else Except.ok p.1

/-- The observable outcomes of `RandomizeView.form_valid`
(views.py:66-75). -/
inductive RandomizeOutcome
  | ok
  | caught
  | uncaught
deriving DecidableEq, Repr

/-- `RandomizeView.form_valid` (views.py:66-75): `randomize_rooms` runs
inside `transaction.atomic()`.  A normal return commits the new state
and shows the success message (`ok`).  The handler catches only
`RandomRoomAssignmentError`: that exception rolls the transaction back
and the view returns without the success message (`caught`).  Any other
exception — in particular the `ValueError` of line 170 — also rolls the
transaction back but propagates out of the view, so the request fails
and no message of any kind is delivered (`uncaught`). -/
def form_valid (st : EventState) (force : Bool) :
    EventState × RandomizeOutcome :=
  match randomize_rooms st force with
  | Except.ok st2 => (st2, RandomizeOutcome.ok)
  | Except.error RandomizeError.randomRoomAssignmentError =>
    (st, RandomizeOutcome.caught)
  | Except.error RandomizeError.valueError => (st, RandomizeOutcome.uncaught)

/-! ### Concrete states for claim C1 -/

def rC1 : Room :=
  { id := 2, definitionId := 1, name := "R", password := "p",
    disable_random_extra := false, optout_random_extra := false }

/-- One room of a definition with `capacity = 2`, `extra_capacity = 0`,
`max_rooms = 1`, holding one valid (paid) occupant. -/
def stC1 : EventState :=
  { definitions := [{ id := 1, name := "A", items := [10], capacity := 2,
                      extra_capacity := 0, max_rooms := 1 }],
    rooms := [rC1],
    orderRooms := [{ id := 4, order := some 3, cartId := none, roomId := 2,
                     is_admin := true }],
    orders := [{ id := 3, code := "O1", status := OrderStatus.paid, items := [10] }],
    cartPositions := [], now := 0, hostRandomControl := false, nextId := 5 }

/-- C1: the capacity predicate of models.py:53-54 compares the valid
occupant count against the definition's `max_rooms`, not against
`capacity + (includeExtra ? extra_capacity : 0)` as the claim states:
with one valid occupant, `capacity = 2` and `max_rooms = 1`, the source
predicate `Room.has_capacity` returns `false` although the claimed
predicate (here `Room.has_capacityExtra`, for either value of
`includeExtra`) returns `true`. -/
theorem has_capacity_compares_max_rooms :
    (Room.get_valid_room_orders stC1 rC1).length = 1
    ∧ Room.has_capacity stC1 rC1 = false
    ∧ Room.has_capacityExtra stC1 rC1 false = true
    ∧ Room.has_capacityExtra stC1 rC1 true = true := by
  refine ⟨by decide, by decide, by decide, by decide⟩

/-! ### Concrete states for claim C3 -/

def dC3 : RoomDefinition :=
  { id := 1, name := "A", items := [10], capacity := 1, extra_capacity := 0,
    max_rooms := 3 }

def rC3 : Room :=
  { id := 2, definitionId := 1, name := "R", password := "p",
    disable_random_extra := false, optout_random_extra := false }

/-- One room of a definition with `capacity = 1`, `extra_capacity = 0`,
`max_rooms = 3`, holding one valid (paid) occupant; the cart `c2` holds
an unexpired eligible position and now joins. -/
def stC3 : EventState :=
  { definitions := [dC3], rooms := [rC3],
    orderRooms := [{ id := 4, order := some 3, cartId := none, roomId := 2,
                     is_admin := true }],
    orders := [{ id := 3, code := "O1", status := OrderStatus.paid, items := [10] }],
    cartPositions := [{ cartId := "c2", item := 10, expires := 100 }],
    now := 0, hostRandomControl := false, nextId := 5 }

/-- C3: the checkout join guard (checkoutflow.py:209) calls the
zero-argument `has_capacity` of models.py, which compares against
`max_rooms = 3` instead of `capacity + extra_capacity = 1`; the join of
cart `c2` into the full room therefore succeeds and leaves the room with
2 valid memberships, violating the claimed invariant
`ValidOccupantCount(room) <= capacity + extra_capacity`. -/
theorem checkout_join_overfills_capacity :
    ((RoomStep.post_room_join stC3 "c2" rC3).toOption.map
      (fun st => (Room.get_valid_room_orders st rC3).length)) = some 2
    ∧ dC3.capacity + dC3.extra_capacity = 1 := by
  refine ⟨by decide, by decide⟩

/-- C10: looking up a room whose memberships are all invalid fails with
the room-not-found error even when the password would match: the
validity check of `RoomJoinForm.clean` (checkoutflow.py:130-136) fires
before the password is ever compared. -/
theorem join_stale_room_not_found (st : EventState) (name password : String)
    (room : Room)
    (hname : (name == "") = false) (hpw : (password == "") = false)
    (hfind : st.rooms.find? (fun r => r.name == name) = some room)
    (hstale : Room.is_valid st room = false) :
    RoomJoinForm.clean st name password = Except.error "room_not_found" := by
  unfold RoomJoinForm.clean
  rw [hname, hfind]
  simp [hpw, hstale]

def rC10 : Room :=
  { id := 2, definitionId := 1, name := "R", password := "p",
    disable_random_extra := false, optout_random_extra := false }

/-- A room whose only membership is order-scoped with a canceled order:
no valid membership remains. -/
def stC10 : EventState :=
  { definitions := [{ id := 1, name := "A", items := [10], capacity := 2,
                      extra_capacity := 0, max_rooms := 1 }],
    rooms := [rC10],
    orderRooms := [{ id := 4, order := some 3, cartId := none, roomId := 2,
                     is_admin := true }],
    orders := [{ id := 3, code := "O1", status := OrderStatus.canceled,
                 items := [10] }],
    cartPositions := [], now := 0, hostRandomControl := false, nextId := 5 }

/-- Witness for C10: in `stC10` the supplied password "p" matches the
stale room's password, yet the join fails with the room-not-found
error. -/
theorem join_stale_room_not_found_witness :
    ("R" == "") = false ∧ ("p" == "") = false
    ∧ stC10.rooms.find? (fun r => r.name == "R") = some rC10
    ∧ Room.is_valid stC10 rC10 = false
    ∧ rC10.password = "p"
    ∧ RoomJoinForm.clean stC10 "R" "p" = Except.error "room_not_found" :=
  ⟨by decide, by decide, by decide, by decide, by decide,
   join_stale_room_not_found stC10 "R" "p" rC10 (by decide) (by decide)
     (by decide) (by decide)⟩

/-- C2: when at least one order is still unassigned after pass 3 and
`force` is false, `form_valid` leaves the state exactly as it was — no
room and no membership created during the passes is persisted — but the
outcome is the uncaught `ValueError` of views.py:170: the rollback half
of the claim holds, while the claimed report of the unplaced orders is
never delivered. -/
theorem randomize_force_false_rolls_back (st : EventState)
    (h : (randPasses st).2 ≠ []) :
    form_valid st false = (st, RandomizeOutcome.uncaught) := by
  unfold form_valid randomize_rooms
  have hlen : ((randPasses st).2.length != 0) = true := by
    simp only [bne_iff_ne, ne_eq, List.length_eq_zero]
    exact h
  simp [hlen, formatFailureMessage]

/-- An unplaceable input for the C2 witness: one paid eligible order, a
definition with `max_rooms = 0` and no rooms at all. -/
def stC2 : EventState :=
  { definitions := [{ id := 1, name := "A", items := [10], capacity := 2,
                      extra_capacity := 1, max_rooms := 0 }],
    rooms := [], orderRooms := [],
    orders := [{ id := 3, code := "O1", status := OrderStatus.paid, items := [10] }],
    cartPositions := [], now := 0, hostRandomControl := false, nextId := 5 }

/-- Witness for C2: in `stC2` the single order cannot be placed, and the
batch rolls back to the untouched input state with the uncaught
`ValueError` outcome. -/
theorem randomize_force_false_rolls_back_witness :
    (randPasses stC2).2 ≠ []
    ∧ form_valid stC2 false = (stC2, RandomizeOutcome.uncaught) :=
  ⟨by decide, randomize_force_false_rolls_back stC2 (by decide)⟩

/-- C6: when `force` is true and some orders remain unplaceable after
pass 3, `form_valid` does NOT persist the pass assignments: the
`ValueError` of views.py:170 is raised before the `force` check, escapes
the handler (which catches only `RandomRoomAssignmentError`), and rolls
the whole transaction back, delivering no report — contradicting the
claim. -/
theorem randomize_force_true_crashes (st : EventState)
    (h : (randPasses st).2 ≠ []) :
    form_valid st true = (st, RandomizeOutcome.uncaught) := by
  unfold form_valid randomize_rooms
  have hlen : ((randPasses st).2.length != 0) = true := by
    simp only [bne_iff_ne, ne_eq, List.length_eq_zero]
    exact h
  simp [hlen, formatFailureMessage]

/-- Witness for C6: in `stC2` the single order cannot be placed; with
`force = true` the state still rolls back to the input and the outcome
is the uncaught `ValueError`. -/
theorem randomize_force_true_crashes_witness :
    (randPasses stC2).2 ≠ []
    ∧ form_valid stC2 true = (stC2, RandomizeOutcome.uncaught) :=
  ⟨by decide, randomize_force_true_crashes stC2 (by decide)⟩

/-- List helper: if filtering by `p` leaves exactly `[r]`, then `find? p`
returns `r`. -/
theorem find?_of_filter_eq_singleton {α : Type} {p : α → Bool} {l : List α}
    {r : α} (h : l.filter p = [r]) : l.find? p = some r := by
  induction l with
  | nil => simp at h
  | cons a l ih =>
    cases hp : p a with
    | true =>
      rw [List.filter_cons_of_pos hp] at h
      rw [List.find?_cons_of_pos _ hp]
      simp only [List.cons.injEq] at h
      exact congrArg some h.1
    | false =>
      rw [List.filter_cons_of_neg (by simp [hp])] at h
      rw [List.find?_cons_of_neg _ (by simp [hp])]
      exact ih h

/-- List helper: a singleton filter survives strengthening the predicate
by a conjunct that holds on the surviving element. -/
theorem filter_and_of_filter_eq_singleton {α : Type} {p q : α → Bool}
    {l : List α} {r : α} (h : l.filter p = [r]) (hq : q r = true) :
    l.filter (fun x => p x && q x) = [r] := by
  induction l with
  | nil => simp at h
  | cons a l ih =>
    cases hp : p a with
    | true =>
      rw [List.filter_cons_of_pos hp] at h
      simp only [List.cons.injEq] at h
      obtain ⟨rfl, h2⟩ := h
      rw [List.filter_cons_of_pos (by simp [hp, hq])]
      have : ∀ x ∈ l, ¬ (p x = true) := List.filter_eq_nil_iff.mp h2
      have h3 : l.filter (fun x => p x && q x) = [] := by
        rw [List.filter_eq_nil_iff]
        intro x hx
        simp [Bool.eq_false_iff.mpr (this x hx)]
      rw [h3]
    | false =>
      rw [List.filter_cons_of_neg (by simp [hp])] at h
      rw [List.filter_cons_of_neg (by simp [hp])]
      exact ih h

/-- C7: creating a room under a name that collides with the (unique)
existing room `r` raises the duplicate-name error iff `r` still has a
valid membership; when all of `r`'s memberships are invalid, the
creation succeeds and overwrites `r`'s password and definition (quota),
joining the creating cart as admin. -/
theorem create_duplicate_name_policy (st : EventState)
    (name password cartId : String) (defId : Nat) (r : Room) (d : RoomDefinition)
    (hname : (name == "") = false)
    (hfilter : st.rooms.filter (fun x => x.name == name) = [r])
    (hid : (r.id != 0) = true) :
    (RoomCreateForm.clean_name st none name
        = Except.error "duplicate_name" ↔ Room.is_valid st r = true)
    ∧ (Room.is_valid st r = false →
       findDef st defId = some d →
       RoomDefinition.is_available st d = true →
       RoomStep.post_room_create st cartId none defId name password =
         Except.ok { st with
           rooms := st.rooms.map (fun x =>
             if x.id == r.id
             then { x with password := password, definitionId := d.id }
             else x),
           orderRooms := st.orderRooms ++
             [{ id := st.nextId, order := none, cartId := some cartId,
                roomId := r.id, is_admin := true }],
           nextId := st.nextId + 1 }) := by
  have hfilter2 : st.rooms.filter (fun x =>
      x.name == name && x.id != (none : Option Nat).getD 0) = [r] :=
    filter_and_of_filter_eq_singleton hfilter hid
  have hfind : st.rooms.find? (fun x => x.name == name) = some r :=
    find?_of_filter_eq_singleton hfilter
  constructor
  · unfold RoomCreateForm.clean_name
    rw [hname, hfilter2]
    simp only [List.head?_cons]
    cases hv : Room.is_valid st r with
    | true => simp
    | false => simp
  · intro hinv hdef havail
    unfold RoomStep.post_room_create
    simp only [hdef, havail, Bool.not_true, Bool.false_eq_true, if_false, hfind]

def rC7 : Room :=
  { id := 2, definitionId := 1, name := "dup", password := "old",
    disable_random_extra := false, optout_random_extra := false }

def dC7 : RoomDefinition :=
  { id := 1, name := "A", items := [10], capacity := 2,
    extra_capacity := 0, max_rooms := 2 }

/-- A stale room named "dup" whose only membership belongs to a canceled
order, under a definition with one free room slot. -/
def stC7 : EventState :=
  { definitions := [dC7],
    rooms := [rC7],
    orderRooms := [{ id := 4, order := some 3, cartId := none, roomId := 2,
                     is_admin := true }],
    orders := [{ id := 3, code := "O1", status := OrderStatus.canceled,
                 items := [10] }],
    cartPositions := [], now := 0, hostRandomControl := false, nextId := 5 }

/-- Witness for C7: the stale room "dup" has no valid membership, so the
name check passes and the creation overwrites its password and
definition. -/
theorem create_duplicate_name_policy_witness :
    ("dup" == "") = false
    ∧ stC7.rooms.filter (fun x => x.name == "dup") = [rC7]
    ∧ (rC7.id != 0) = true
    ∧ ((RoomCreateForm.clean_name stC7 none "dup"
          = Except.error "duplicate_name" ↔ Room.is_valid stC7 rC7 = true)
       ∧ (Room.is_valid stC7 rC7 = false →
          findDef stC7 1 = some dC7 →
          RoomDefinition.is_available stC7 dC7 = true →
          RoomStep.post_room_create stC7 "c9" none 1 "dup" "new" =
            Except.ok { stC7 with
              rooms := stC7.rooms.map (fun x =>
                if x.id == rC7.id
                then { x with password := "new", definitionId := 1 }
                else x),
              orderRooms := stC7.orderRooms ++
                [{ id := stC7.nextId, order := none, cartId := some "c9",
                   roomId := rC7.id, is_admin := true }],
              nextId := stC7.nextId + 1 })) :=
  ⟨by decide, by decide, by decide,
   create_duplicate_name_policy stC7 "dup" "new" "c9" 1 rC7 dC7
     (by decide) (by decide) (by decide)⟩

/-- The valid memberships of a room do not depend on the stored room
list (only on the membership rows and the environment). -/
theorem get_valid_room_orders_rooms_irrelevant (st : EventState)
    (X : List Room) (r : Room) :
    Room.get_valid_room_orders { st with rooms := X } r
      = Room.get_valid_room_orders st r := rfl

/-- List helper: filtering by a predicate that ignores `is_admin`
commutes with the admin-promotion map of `Room.touch`. -/
theorem filter_map_admin (l : List OrderRoom) (p : OrderRoom → Bool)
    (hp : ∀ m : OrderRoom, p { m with is_admin := true } = p m) (vid : Nat) :
    (l.map (fun m => if m.id == vid then { m with is_admin := true } else m)).filter p
    = (l.filter p).map (fun m => if m.id == vid then { m with is_admin := true } else m) := by
  induction l with
  | nil => rfl
  | cons a l ih =>
    simp only [List.map_cons]
    by_cases h : (a.id == vid) = true
    · rw [if_pos h]
      by_cases hpa : p a = true
      · rw [List.filter_cons_of_pos (by rw [hp]; exact hpa),
            List.filter_cons_of_pos hpa]
        simp only [List.map_cons]
        rw [if_pos h, ih]
      · rw [List.filter_cons_of_neg (by rw [hp]; simp [hpa]),
            List.filter_cons_of_neg (by simp [hpa])]
        exact ih
    · rw [if_neg h]
      by_cases hpa : p a = true
      · rw [List.filter_cons_of_pos hpa, List.filter_cons_of_pos hpa]
        simp only [List.map_cons]
        rw [if_neg h, ih]
      · rw [List.filter_cons_of_neg (by simp [hpa]),
            List.filter_cons_of_neg (by simp [hpa])]
        exact ih

/-- Promoting a membership to admin does not change which memberships of
a room are valid, beyond the promotion itself. -/
theorem get_valid_room_orders_promote (st : EventState) (vid : Nat) (r : Room) :
    Room.get_valid_room_orders
      { st with orderRooms := st.orderRooms.map (fun m =>
          if m.id == vid then { m with is_admin := true } else m) } r
    = (Room.get_valid_room_orders st r).map (fun m =>
        if m.id == vid then { m with is_admin := true } else m) := by
  show (st.orderRooms.map (fun m =>
      if m.id == vid then { m with is_admin := true } else m)).filter
        (fun m => m.roomId == r.id
          && roomMemberValid st (defItems st r.definitionId) m)
    = (Room.get_valid_room_orders st r).map (fun m =>
        if m.id == vid then { m with is_admin := true } else m)
  exact filter_map_admin st.orderRooms
    (fun m => m.roomId == r.id
      && roomMemberValid st (defItems st r.definitionId) m)
    (fun m => rfl) vid

/-- After `Room.touch`, if the room still has a valid membership then
some valid membership of it is admin-flagged. -/
theorem touch_leaves_admin (st : EventState) (r : Room)
    (hvalid : Room.get_valid_room_orders (Room.touch st r) r ≠ []) :
    ∃ x ∈ Room.get_valid_room_orders (Room.touch st r) r, x.is_admin = true := by
  rcases hv : Room.get_valid_room_orders st r with _ | ⟨v, vs⟩
  · have h1 : Room.touch st r
        = { st with rooms := st.rooms.filter (fun x => x.id != r.id) } := by
      unfold Room.touch
      rw [hv]
    rw [h1, get_valid_room_orders_rooms_irrelevant, hv] at hvalid
    exact absurd rfl hvalid
  · by_cases ha : ((v :: vs).any (fun m => m.is_admin)) = true
    · have h1 : Room.touch st r = st := by
        unfold Room.touch
        rw [hv]
        dsimp only
        rw [if_pos ha]
      rw [h1]
      obtain ⟨x, hx, hxa⟩ := List.any_eq_true.mp ha
      exact ⟨x, by rw [hv]; exact hx, hxa⟩
    · have h1 : Room.touch st r
          = { st with orderRooms := st.orderRooms.map (fun m =>
              if m.id == v.id then { m with is_admin := true } else m) } := by
        unfold Room.touch
        rw [hv]
        dsimp only
        rw [if_neg ha]
      rw [h1, get_valid_room_orders_promote, hv]
      refine ⟨{ v with is_admin := true }, ?_, rfl⟩
      simp only [List.map_cons, beq_self_eq_true, if_true]
      exact List.mem_cons_self _ _

/-- The state after removing one membership row, before the
`post_delete` signal runs. -/
def removeOrderRoomRow (st : EventState) (pk : Nat) : EventState :=
  { st with orderRooms := st.orderRooms.filter (fun x => x.id != pk) }

/-- C8 (amended): after a membership deletion, if the affected room
still has at least one valid membership then at least one of its valid
memberships is admin-flagged (the `post_delete` signal calls
`Room.touch`, which promotes the first valid membership when no valid
admin remains; it does not reduce several pre-existing admins to one). -/
theorem delete_leaves_valid_admin (st : EventState) (pk : Nat)
    (m : OrderRoom) (r : Room)
    (hm : st.orderRooms.find? (fun x => x.id == pk) = some m)
    (hr : findRoom (removeOrderRoomRow st pk) m.roomId = some r)
    (hvalid : Room.get_valid_room_orders (OrderRoom.deleteById st pk) r ≠ []) :
    ∃ x ∈ Room.get_valid_room_orders (OrderRoom.deleteById st pk) r,
      x.is_admin = true := by
  have hd : OrderRoom.deleteById st pk = Room.touch (removeOrderRoomRow st pk) r := by
    unfold OrderRoom.deleteById
    rw [hm]
    dsimp only
    rw [show ({ st with orderRooms := st.orderRooms.filter (fun x => x.id != pk) } : EventState)
        = removeOrderRoomRow st pk from rfl, hr]
  rw [hd] at hvalid ⊢
  exact touch_leaves_admin _ r hvalid

def rC8 : Room :=
  { id := 2, definitionId := 1, name := "R", password := "p",
    disable_random_extra := false, optout_random_extra := false }

/-- A room with two admin-flagged valid memberships and a third
(non-admin) valid membership. -/
def stC8 : EventState :=
  { definitions := [{ id := 1, name := "A", items := [10], capacity := 4,
                      extra_capacity := 0, max_rooms := 1 }],
    rooms := [rC8],
    orderRooms := [{ id := 3, order := some 10, cartId := none, roomId := 2,
                     is_admin := true },
                   { id := 4, order := some 11, cartId := none, roomId := 2,
                     is_admin := true },
                   { id := 5, order := some 12, cartId := none, roomId := 2,
                     is_admin := false }],
    orders := [{ id := 10, code := "O1", status := OrderStatus.paid, items := [10] },
               { id := 11, code := "O2", status := OrderStatus.paid, items := [10] },
               { id := 12, code := "O3", status := OrderStatus.paid, items := [10] }],
    cartPositions := [], now := 0, hostRandomControl := false, nextId := 6 }

/-- Counterexample for C8: deleting the non-admin membership (pk 5) of
`stC8` leaves two valid memberships, both admin-flagged — not exactly
one, as the claim states. -/
theorem delete_two_admins_remain :
    (Room.get_valid_room_orders (OrderRoom.deleteById stC8 5) rC8).length = 2
    ∧ ((Room.get_valid_room_orders (OrderRoom.deleteById stC8 5) rC8).filter
        (fun m => m.is_admin)).length = 2 :=
  ⟨by decide, by decide⟩

def rC8w : Room :=
  { id := 2, definitionId := 1, name := "R", password := "p",
    disable_random_extra := false, optout_random_extra := false }

/-- A room with an admin membership (pk 3) and a non-admin one (pk 4),
both valid. -/
def stC8w : EventState :=
  { definitions := [{ id := 1, name := "A", items := [10], capacity := 4,
                      extra_capacity := 0, max_rooms := 1 }],
    rooms := [rC8w],
    orderRooms := [{ id := 3, order := some 10, cartId := none, roomId := 2,
                     is_admin := true },
                   { id := 4, order := some 11, cartId := none, roomId := 2,
                     is_admin := false }],
    orders := [{ id := 10, code := "O1", status := OrderStatus.paid, items := [10] },
               { id := 11, code := "O2", status := OrderStatus.paid, items := [10] }],
    cartPositions := [], now := 0, hostRandomControl := false, nextId := 6 }

def mC8w : OrderRoom :=
  { id := 3, order := some 10, cartId := none, roomId := 2, is_admin := true }

/-- Witness for the amended C8: deleting the admin membership (pk 3) of
`stC8w` leaves one valid membership, and `touch` promotes it. -/
theorem delete_leaves_valid_admin_witness :
    stC8w.orderRooms.find? (fun x => x.id == 3) = some mC8w
    ∧ findRoom (removeOrderRoomRow stC8w 3) mC8w.roomId = some rC8w
    ∧ Room.get_valid_room_orders (OrderRoom.deleteById stC8w 3) rC8w ≠ []
    ∧ ∃ x ∈ Room.get_valid_room_orders (OrderRoom.deleteById stC8w 3) rC8w,
        x.is_admin = true :=
  ⟨by decide, by decide, by decide,
   delete_leaves_valid_admin stC8w 3 mC8w rC8w (by decide) (by decide) (by decide)⟩

/-- The mode conditions of the order-placement state machine as the spec
states them: `join` needs `room_create` absent and `room_join` present,
`create` needs both present, `none` or absent needs both absent, and any
other value is rejected. -/
def roomModeOK (meta : OrderMeta) : Bool :=
  match meta.room_mode with
  | none => !meta.room_create.isSome && !meta.room_join.isSome
  | some mode =>
    if mode == "join" then !meta.room_create.isSome && meta.room_join.isSome
    else if mode == "create" then meta.room_create.isSome && meta.room_join.isSome
    else if mode == "none" then !meta.room_create.isSome && !meta.room_join.isSome
    else false

/-- The claim's validation predicate (C5), as stated: the mode
conditions hold, and the Membership referenced by `room_join` — when it
exists — is valid and matched by an eligible cart item. -/
def ValidateOrderRoomStateClaim (st : EventState) (meta : OrderMeta)
    (positions : List Nat) : Bool :=
  roomModeOK meta
  && (match meta.room_join.bind (fun pk =>
        st.orderRooms.find? (fun m => m.id == pk)) with
      | some m => OrderRoom.is_valid st m
          && positions.any (fun i => (membershipRoomItems st m).contains i)
      | none => true)

/-- The amended validation predicate (C5): the claim's conditions plus
the extra check the code performs — when `room_create` references an
existing Room, that Room must itself be valid. -/
def ValidateOrderRoomStateAmended (st : EventState) (meta : OrderMeta)
    (positions : List Nat) : Bool :=
  ValidateOrderRoomStateClaim st meta positions
  && (match meta.room_create.bind (fun pk => findRoom st pk) with
      | some r => Room.is_valid st r
      | none => true)

/-- The mode block of the checker succeeds exactly on the spec's mode
conditions. -/
theorem roomModeCheck_isOk (meta : OrderMeta) :
    (roomModeCheck meta).isOk = roomModeOK meta := by
  unfold roomModeCheck roomModeOK
  cases meta.room_mode with
  | none =>
    cases hc : meta.room_create.isSome <;> cases hj : meta.room_join.isSome <;>
      simp [hc, hj, Except.isOk, Except.toBool]
  | some mode =>
    by_cases h1 : (mode == "join") = true <;>
      by_cases h2 : (mode == "create") = true <;>
        by_cases h3 : (mode == "none") = true <;>
          cases hc : meta.room_create.isSome <;>
            cases hj : meta.room_join.isSome <;>
              simp [h1, h2, h3, hc, hj, Except.isOk, Except.toBool]

/-- C5 (amended): `room_validate_order` succeeds if and only if the
claim's state machine holds and, additionally, a Room referenced by
`room_create` is itself valid. -/
theorem validate_order_ok_iff (st : EventState) (meta : OrderMeta)
    (positions : List Nat) :
    (room_validate_order st meta positions).isOk
      = ValidateOrderRoomStateAmended st meta positions := by
  unfold room_validate_order ValidateOrderRoomStateAmended
    ValidateOrderRoomStateClaim
  have hmode := roomModeCheck_isOk meta
  cases hc : meta.room_create.bind (fun pk => findRoom st pk) with
  | none =>
    cases hj : meta.room_join.bind (fun pk =>
        st.orderRooms.find? (fun m => m.id == pk)) with
    | none => simp only [hc, hj, Option.any_none, Bool.false_eq_true, if_false,
        hmode, Bool.and_true]
    | some m =>
      cases hv : OrderRoom.is_valid st m with
      | false =>
        simp only [hc, hj, Option.any_none, Bool.false_eq_true, if_false, hv,
          Bool.not_false, if_true, Bool.and_true, Bool.false_and, Bool.and_false]
        rfl
      | true =>
        cases he : positions.any (fun i => (membershipRoomItems st m).contains i) with
        | false =>
          simp only [hc, hj, Option.any_none, Bool.false_eq_true, if_false, hv,
            he, Bool.not_true, Bool.not_false, if_true, Bool.and_true,
            Bool.true_and, Bool.and_false]
          rfl
        | true =>
          simp only [hc, hj, Option.any_none, Bool.false_eq_true, if_false, hv,
            he, Bool.not_true, Bool.not_false, Bool.true_eq_false, hmode,
            Bool.and_true, Bool.true_and]
  | some r =>
    cases hvr : Room.is_valid st r with
    | false =>
      simp only [hc, hvr, Option.any_some, Bool.not_false, if_true,
        Bool.and_false]
      rfl
    | true =>
      cases hj : meta.room_join.bind (fun pk =>
          st.orderRooms.find? (fun m => m.id == pk)) with
      | none =>
        simp only [hc, hj, hvr, Option.any_some, Bool.not_true,
          Bool.false_eq_true, if_false, hmode, Bool.and_true]
      | some m =>
        cases hv : OrderRoom.is_valid st m with
        | false =>
          simp only [hc, hj, hvr, hv, Option.any_some, Bool.not_true,
            Bool.not_false, Bool.false_eq_true, if_false, if_true,
            Bool.and_true, Bool.false_and, Bool.and_false]
          rfl
        | true =>
          cases he : positions.any (fun i => (membershipRoomItems st m).contains i) with
          | false =>
            simp only [hc, hj, hvr, hv, he, Option.any_some, Bool.not_true,
              Bool.not_false, Bool.false_eq_true, if_false, if_true,
              Bool.and_true, Bool.true_and, Bool.and_false]
            rfl
          | true =>
            simp only [hc, hj, hvr, hv, he, Option.any_some, Bool.not_true,
              Bool.not_false, Bool.false_eq_true, Bool.true_eq_false, if_false,
              hmode, Bool.and_true, Bool.true_and]

/-- State for the C5 counterexample: room 2 is stale (no valid
membership); room 3 holds the valid cart-scoped membership 4. -/
def stC5 : EventState :=
  { definitions := [{ id := 1, name := "A", items := [10], capacity := 2,
                      extra_capacity := 0, max_rooms := 5 }],
    rooms := [{ id := 2, definitionId := 1, name := "Stale", password := "p",
                disable_random_extra := false, optout_random_extra := false },
              { id := 3, definitionId := 1, name := "Good", password := "p",
                disable_random_extra := false, optout_random_extra := false }],
    orderRooms := [{ id := 4, order := none, cartId := some "c1", roomId := 3,
                     is_admin := true }],
    orders := [],
    cartPositions := [{ cartId := "c1", item := 10, expires := 100 }],
    now := 0, hostRandomControl := false, nextId := 6 }

def metaC5 : OrderMeta :=
  { room_mode := some "create", room_join := some 4, room_create := some 2 }

/-- Counterexample for C5: with `room_mode = create`, both metadata
fields present, and a valid, item-matched Membership referenced by
`room_join`, the claim's state machine accepts the order, yet
`room_validate_order` rejects it because the Room referenced by
`room_create` has no valid membership — a condition the claim does not
mention. -/
theorem validate_order_claim_counterexample :
    ValidateOrderRoomStateClaim stC5 metaC5 [10] = true
    ∧ (room_validate_order stC5 metaC5 [10]).isOk = false :=
  ⟨by decide, by decide⟩

/-- Relation between successive states of one randomizer run: the
environment (definitions, orders, cart positions, time, settings) is
unchanged, and room and membership rows are only appended. -/
structure RandExtends (st st2 : EventState) : Prop where
  defs_eq : st2.definitions = st.definitions
  orders_eq : st2.orders = st.orders
  carts_eq : st2.cartPositions = st.cartPositions
  now_eq : st2.now = st.now
  host_eq : st2.hostRandomControl = st.hostRandomControl
  orderRooms_ext : ∃ l, st2.orderRooms = st.orderRooms ++ l
  rooms_ext : ∃ l, st2.rooms = st.rooms ++ l

theorem RandExtends.refl (st : EventState) : RandExtends st st :=
  ⟨rfl, rfl, rfl, rfl, rfl, ⟨[], by simp⟩, ⟨[], by simp⟩⟩

theorem RandExtends.trans {st1 st2 st3 : EventState}
    (h1 : RandExtends st1 st2) (h2 : RandExtends st2 st3) :
    RandExtends st1 st3 := by
  obtain ⟨l1, hl1⟩ := h1.orderRooms_ext
  obtain ⟨l2, hl2⟩ := h2.orderRooms_ext
  obtain ⟨r1, hr1⟩ := h1.rooms_ext
  obtain ⟨r2, hr2⟩ := h2.rooms_ext
  refine ⟨h2.defs_eq.trans h1.defs_eq, h2.orders_eq.trans h1.orders_eq,
    h2.carts_eq.trans h1.carts_eq, h2.now_eq.trans h1.now_eq,
    h2.host_eq.trans h1.host_eq, ⟨l1 ++ l2, ?_⟩, ⟨r1 ++ r2, ?_⟩⟩
  · rw [hl2, hl1, List.append_assoc]
  · rw [hr2, hr1, List.append_assoc]

theorem addOrderRoom_extends (st : EventState) (oid rid : Nat) (a : Bool) :
    RandExtends st (addOrderRoom st oid rid a) :=
  ⟨rfl, rfl, rfl, rfl, rfl, ⟨_, rfl⟩, ⟨[], by simp [addOrderRoom]⟩⟩

theorem findOrder_ext {st st2 : EventState} (h : RandExtends st st2)
    (oid : Nat) : findOrder st2 oid = findOrder st oid := by
  unfold findOrder
  rw [h.orders_eq]

theorem findDef_ext {st st2 : EventState} (h : RandExtends st st2)
    (did : Nat) : findDef st2 did = findDef st did := by
  unfold findDef
  rw [h.defs_eq]

theorem defItems_ext {st st2 : EventState} (h : RandExtends st st2)
    (did : Nat) : defItems st2 did = defItems st did := by
  unfold defItems
  rw [findDef_ext h]

theorem roomMemberValid_ext {st st2 : EventState} (h : RandExtends st st2)
    (items : List Nat) (m : OrderRoom) :
    roomMemberValid st2 items m = roomMemberValid st items m := by
  unfold roomMemberValid
  rw [h.carts_eq, h.now_eq]
  cases m.order with
  | none => rfl
  | some oid =>
    dsimp only
    rw [findOrder_ext h]

theorem orderDefinitions_ext {st st2 : EventState} (h : RandExtends st st2)
    (ord : Order) : orderDefinitions st2 ord = orderDefinitions st ord := by
  unfold orderDefinitions
  rw [h.defs_eq]

/-- Along a randomizer run, the valid occupant list of a fixed room only
grows (memberships are appended, never removed, and validity is judged
against the unchanged environment). -/
theorem valid_count_mono {st st2 : EventState} (h : RandExtends st st2)
    (r : Room) :
    (Room.get_valid_room_orders st r).length
      ≤ (Room.get_valid_room_orders st2 r).length := by
  obtain ⟨l, hl⟩ := h.orderRooms_ext
  unfold Room.get_valid_room_orders
  rw [hl, defItems_ext h]
  have : ∀ m : OrderRoom,
      (m.roomId == r.id && roomMemberValid st2 (defItems st r.definitionId) m)
      = (m.roomId == r.id && roomMemberValid st (defItems st r.definitionId) m) := by
    intro m
    rw [roomMemberValid_ext h]
  rw [List.filter_congr (fun m _ => this m), List.filter_append,
    List.length_append]
  exact Nat.le_add_right _ _

/-- Capacity transported backwards: a room with capacity in the later
state had capacity in the earlier state. -/
theorem has_capacityExtra_of_later {st st2 : EventState}
    (h : RandExtends st st2) (r : Room) (e : Bool)
    (hc : Room.has_capacityExtra st2 r e = true) :
    Room.has_capacityExtra st r e = true := by
  unfold Room.has_capacityExtra at hc ⊢
  rw [findDef_ext h] at hc
  simp only [decide_eq_true_eq] at hc ⊢
  exact Nat.lt_of_le_of_lt (valid_count_mono h r) hc

/-- No-capacity transported forwards: a room without capacity never
regains it during a run. -/
theorem no_capacityExtra_of_earlier {st st2 : EventState}
    (h : RandExtends st st2) (r : Room) (e : Bool)
    (hc : Room.has_capacityExtra st r e = false) :
    Room.has_capacityExtra st2 r e = false := by
  cases hc2 : Room.has_capacityExtra st2 r e with
  | false => rfl
  | true =>
    exact (Bool.false_ne_true
      (hc.symm.trans (has_capacityExtra_of_later h r e hc2))).elim

/-- The pruned working list of `scanRooms` is a subset of its input. -/
theorem scanRooms_sub (st : EventState) (defs : List RoomDefinition)
    (e : Bool) :
    ∀ l : List Room, ∀ r ∈ (scanRooms st defs e l).1, r ∈ l := by
  intro l
  induction l with
  | nil => intro r hr; simp [scanRooms] at hr
  | cons a l ih =>
    intro r hr
    unfold scanRooms at hr
    by_cases hc : Room.has_capacityExtra st a e = true
    · rw [hc] at hr
      simp only [Bool.not_true, Bool.false_eq_true, if_false] at hr
      by_cases hd : (defs.any (fun d => d.id == a.definitionId)) = true
      · rw [if_pos hd] at hr
        exact hr
      · rw [if_neg hd] at hr
        rcases List.mem_cons.mp hr with h1 | h1
        · exact List.mem_cons.mpr (Or.inl h1)
        · exact List.mem_cons.mpr (Or.inr (ih r h1))
    · rw [Bool.eq_false_iff.mpr hc] at hr
      simp only [Bool.not_false, if_true] at hr
      exact List.mem_cons.mpr (Or.inr (ih r hr))

/-- Every room of the input that keeps capacity stays in the pruned
working list of `scanRooms`. -/
theorem scanRooms_mem_of_cap (st : EventState) (defs : List RoomDefinition)
    (e : Bool) :
    ∀ l : List Room, ∀ r ∈ l, Room.has_capacityExtra st r e = true →
      r ∈ (scanRooms st defs e l).1 := by
  intro l
  induction l with
  | nil => intro r hr; simp at hr
  | cons a l ih =>
    intro r hr hcap
    unfold scanRooms
    by_cases hc : Room.has_capacityExtra st a e = true
    · rw [hc]
      simp only [Bool.not_true, Bool.false_eq_true, if_false]
      by_cases hd : (defs.any (fun d => d.id == a.definitionId)) = true
      · rw [if_pos hd]
        exact hr
      · rw [if_neg hd]
        rcases List.mem_cons.mp hr with h1 | h1
        · exact List.mem_cons.mpr (Or.inl h1)
        · exact List.mem_cons.mpr (Or.inr (ih r h1 hcap))
    · rw [Bool.eq_false_iff.mpr hc]
      simp only [Bool.not_false, if_true]
      rcases List.mem_cons.mp hr with h1 | h1
      · exact absurd (h1 ▸ hcap) hc
      · exact ih r h1 hcap

/-- When `scanRooms` returns a room, that room comes from the input
list, has capacity, and matches one of the wanted definitions. -/
theorem scanRooms_found (st : EventState) (defs : List RoomDefinition)
    (e : Bool) :
    ∀ l : List Room, ∀ r : Room, (scanRooms st defs e l).2 = some r →
      r ∈ l ∧ Room.has_capacityExtra st r e = true
        ∧ (defs.any (fun d => d.id == r.definitionId)) = true := by
  intro l
  induction l with
  | nil => intro r hr; simp [scanRooms] at hr
  | cons a l ih =>
    intro r hr
    unfold scanRooms at hr
    by_cases hc : Room.has_capacityExtra st a e = true
    · rw [hc] at hr
      simp only [Bool.not_true, Bool.false_eq_true, if_false] at hr
      by_cases hd : (defs.any (fun d => d.id == a.definitionId)) = true
      · rw [if_pos hd] at hr
        simp only [Option.some.injEq] at hr
        subst hr
        exact ⟨List.mem_cons_self _ _, hc, hd⟩
      · rw [if_neg hd] at hr
        obtain ⟨h1, h2, h3⟩ := ih r hr
        exact ⟨List.mem_cons.mpr (Or.inr h1), h2, h3⟩
    · rw [Bool.eq_false_iff.mpr hc] at hr
      simp only [Bool.not_false, if_true] at hr
      obtain ⟨h1, h2, h3⟩ := ih r hr
      exact ⟨List.mem_cons.mpr (Or.inr h1), h2, h3⟩

/-- When `scanRooms` returns nothing, every room of the input either
lacks capacity or matches no wanted definition. -/
theorem scanRooms_none (st : EventState) (defs : List RoomDefinition)
    (e : Bool) :
    ∀ l : List Room, (scanRooms st defs e l).2 = none →
      ∀ r ∈ l, Room.has_capacityExtra st r e = false
        ∨ (defs.any (fun d => d.id == r.definitionId)) = false := by
  intro l
  induction l with
  | nil => intro _ r hr; simp at hr
  | cons a l ih =>
    intro hn r hr
    unfold scanRooms at hn
    by_cases hc : Room.has_capacityExtra st a e = true
    · rw [hc] at hn
      simp only [Bool.not_true, Bool.false_eq_true, if_false] at hn
      by_cases hd : (defs.any (fun d => d.id == a.definitionId)) = true
      · rw [if_pos hd] at hn
        exact absurd hn (by simp)
      · rw [if_neg hd] at hn
        rcases List.mem_cons.mp hr with h1 | h1
        · subst h1
          exact Or.inr (Bool.eq_false_iff.mpr hd)
        · exact ih (by simpa using hn) r h1
    · rw [Bool.eq_false_iff.mpr hc] at hn
      simp only [Bool.not_false, if_true] at hn
      rcases List.mem_cons.mp hr with h1 | h1
      · subst h1
        exact Or.inl (Bool.eq_false_iff.mpr hc)
      · exact ih hn r h1

theorem fillPass_extends (e : Bool) :
    ∀ (un : List Order) (st : EventState) (ex : List Room),
    RandExtends st (fillPass st ex e un).1 := by
  intro un
  induction un with
  | nil =>
    intro st ex
    exact RandExtends.refl st
  | cons ord rest ih =>
    intro st ex
    unfold fillPass
    cases hscan : scanRooms st (orderDefinitions st ord) e ex with
    | mk ex1 res =>
      cases res with
      | some room =>
        dsimp only
        exact RandExtends.trans (addOrderRoom_extends st ord.id room.id false)
          (ih (addOrderRoom st ord.id room.id false) ex1)
      | none =>
        dsimp only
        exact ih st ex1

theorem fillPass_rooms (e : Bool) :
    ∀ (un : List Order) (st : EventState) (ex : List Room),
    (fillPass st ex e un).1.rooms = st.rooms := by
  intro un
  induction un with
  | nil => intro st ex; rfl
  | cons ord rest ih =>
    intro st ex
    unfold fillPass
    cases hscan : scanRooms st (orderDefinitions st ord) e ex with
    | mk ex1 res =>
      cases res with
      | some room =>
        dsimp only
        exact ih (addOrderRoom st ord.id room.id false) ex1
      | none =>
        dsimp only
        exact ih st ex1

/-- Every membership created by a fill pass belongs to one of the
pass's orders, is non-admin, and points at a room of the working list
whose definition matches that order. -/
theorem fillPass_new_members (e : Bool) :
    ∀ (un : List Order) (st : EventState) (ex : List Room) (m : OrderRoom),
      m ∈ (fillPass st ex e un).1.orderRooms → m ∉ st.orderRooms →
      ∃ ord ∈ un, ∃ r ∈ ex, m.order = some ord.id ∧ m.roomId = r.id
        ∧ m.is_admin = false
        ∧ (orderDefinitions st ord).any (fun d => d.id == r.definitionId) = true := by
  intro un
  induction un with
  | nil =>
    intro st ex m hm hnm
    exact absurd hm hnm
  | cons ord rest ih =>
    intro st ex m hm hnm
    unfold fillPass at hm
    cases hscan : scanRooms st (orderDefinitions st ord) e ex with
    | mk ex1 res =>
      rw [hscan] at hm
      cases res with
      | some room =>
        dsimp only at hm
        have hfound := scanRooms_found st (orderDefinitions st ord) e ex room
          (congrArg Prod.snd hscan)
        by_cases hmem : m ∈ (addOrderRoom st ord.id room.id false).orderRooms
        · rcases List.mem_append.mp hmem with h1 | h1
          · exact absurd h1 hnm
          · rw [List.mem_singleton] at h1
            subst h1
            exact ⟨ord, List.mem_cons_self _ _, room, hfound.1, rfl, rfl, rfl,
              hfound.2.2⟩
        · obtain ⟨ord2, hord2, r, hr, ho, hrid, hadm, hdef⟩ :=
            ih (addOrderRoom st ord.id room.id false) ex1 m hm hmem
          refine ⟨ord2, List.mem_cons.mpr (Or.inr hord2), r,
            scanRooms_sub st (orderDefinitions st ord) e ex r
              (by rw [hscan]; exact hr),
            ho, hrid, hadm, ?_⟩
          rw [orderDefinitions_ext (addOrderRoom_extends st ord.id room.id false)
            ord2] at hdef
          exact hdef
      | none =>
        dsimp only at hm
        obtain ⟨ord2, hord2, r, hr, ho, hrid, hadm, hdef⟩ :=
          ih st ex1 m hm hnm
        exact ⟨ord2, List.mem_cons.mpr (Or.inr hord2), r,
          scanRooms_sub st (orderDefinitions st ord) e ex r
            (by rw [hscan]; exact hr),
          ho, hrid, hadm, hdef⟩

/-- The pass-2 exhaustion property: as long as every room of `base` that
still has normal capacity is kept in the working list, any order that
pass 2 fails to place leaves every definition-matching room of `base`
without normal capacity in the final pass-2 state. -/
theorem fillPass_fail_no_cap (base : List Room) :
    ∀ (un : List Order) (st : EventState) (ex : List Room),
      (∀ r ∈ base, Room.has_capacityExtra st r false = true → r ∈ ex) →
      ∀ ord ∈ (fillPass st ex false un).2.2, ∀ r ∈ base,
        (orderDefinitions st ord).any (fun d => d.id == r.definitionId) = true →
        Room.has_capacityExtra (fillPass st ex false un).1 r false = false := by
  intro un
  induction un with
  | nil =>
    intro st ex _ ord hord
    exact absurd hord (by simp [fillPass])
  | cons o rest ih =>
    intro st ex hinv ord hord r hr hdef
    unfold fillPass at hord ⊢
    cases hscan : scanRooms st (orderDefinitions st o) false ex with
    | mk ex1 res =>
      rw [hscan] at hord
      cases res with
      | some room =>
        dsimp only at hord ⊢
        have hinv1 : ∀ r2 ∈ base,
            Room.has_capacityExtra (addOrderRoom st o.id room.id false) r2 false = true →
            r2 ∈ ex1 := by
          intro r2 hr2 hc2
          have hc0 := has_capacityExtra_of_later
            (addOrderRoom_extends st o.id room.id false) r2 false hc2
          have := scanRooms_mem_of_cap st (orderDefinitions st o) false ex r2
            (hinv r2 hr2 hc0) hc0
          rw [hscan] at this
          exact this
        have hdef1 : (orderDefinitions (addOrderRoom st o.id room.id false) ord).any
            (fun d => d.id == r.definitionId) = true := by
          rw [orderDefinitions_ext (addOrderRoom_extends st o.id room.id false)]
          exact hdef
        exact ih (addOrderRoom st o.id room.id false) ex1 hinv1 ord hord r hr hdef1
      | none =>
        dsimp only at hord ⊢
        have hinv1 : ∀ r2 ∈ base,
            Room.has_capacityExtra st r2 false = true → r2 ∈ ex1 := by
          intro r2 hr2 hc2
          have := scanRooms_mem_of_cap st (orderDefinitions st o) false ex r2
            (hinv r2 hr2 hc2) hc2
          rw [hscan] at this
          exact this
        rcases List.mem_cons.mp hord with h1 | h1
        · subst h1
          have hnocap : Room.has_capacityExtra st r false = false := by
            cases hc : Room.has_capacityExtra st r false with
            | false => rfl
            | true =>
              have hmem := hinv r hr hc
              have hnone := scanRooms_none st (orderDefinitions st ord) false ex
                (congrArg Prod.snd hscan) r hmem
              rcases hnone with h2 | h2
              · exact (Bool.false_ne_true (h2.symm.trans hc)).elim
              · exact (Bool.false_ne_true (h2.symm.trans hdef)).elim
          exact no_capacityExtra_of_earlier (fillPass_extends false rest st ex1)
            r false hnocap
        · exact ih st ex1 hinv1 ord h1 r hr hdef

theorem create_or_fill_rooms_extends (st : EventState) (cr : List Room)
    (ord : Order) : RandExtends st (create_or_fill_rooms st cr ord).1 := by
  unfold create_or_fill_rooms
  cases hscan : scanRooms st (orderDefinitions st ord) false cr with
  | mk pruned res =>
    cases res with
    | some r => exact RandExtends.refl st
    | none =>
      cases hfind : (orderDefinitions st ord).find? (fun d =>
          RoomDefinition.is_available st d) with
      | some d =>
        exact ⟨rfl, rfl, rfl, rfl, rfl, ⟨[], by simp⟩, ⟨_, rfl⟩⟩
      | none => exact RandExtends.refl st

/-- Any room present after `create_or_fill_rooms` was either already
present or is a fresh room with both opt-out flags clear. -/
theorem create_or_fill_rooms_flags (st : EventState) (cr : List Room)
    (ord : Order) :
    ∀ r ∈ (create_or_fill_rooms st cr ord).1.rooms,
      r ∈ st.rooms ∨ (r.disable_random_extra = false
        ∧ r.optout_random_extra = false) := by
  unfold create_or_fill_rooms
  cases hscan : scanRooms st (orderDefinitions st ord) false cr with
  | mk pruned res =>
    cases res with
    | some r2 => exact fun r hr => Or.inl hr
    | none =>
      cases hfind : (orderDefinitions st ord).find? (fun d =>
          RoomDefinition.is_available st d) with
      | some d =>
        intro r hr
        dsimp only at hr
        rcases List.mem_append.mp hr with h1 | h1
        · exact Or.inl h1
        · rw [List.mem_singleton] at h1
          subst h1
          exact Or.inr ⟨rfl, rfl⟩
      | none => exact fun r hr => Or.inl hr

theorem pass1_extends :
    ∀ (un : List Order) (st : EventState) (cr : List Room),
    RandExtends st (pass1 st cr un).1 := by
  intro un
  induction un with
  | nil =>
    intro st cr
    exact RandExtends.refl st
  | cons ord rest ih =>
    intro st cr
    unfold pass1
    cases hstep : create_or_fill_rooms st cr ord with
    | mk st1 rest2 =>
      cases rest2 with
      | mk cr1 res =>
        have hext1 : RandExtends st st1 := by
          have := create_or_fill_rooms_extends st cr ord
          rw [hstep] at this
          exact this
        cases res with
        | some rc =>
          dsimp only
          exact RandExtends.trans hext1 (RandExtends.trans
            (addOrderRoom_extends st1 ord.id rc.1.id rc.2)
            (ih (addOrderRoom st1 ord.id rc.1.id rc.2) cr1))
        | none =>
          dsimp only
          exact RandExtends.trans hext1 (ih st1 cr1)

/-- Any room present after pass 1 was either already present or was
created during the pass with both opt-out flags clear. -/
theorem pass1_flags :
    ∀ (un : List Order) (st : EventState) (cr : List Room),
    ∀ r ∈ (pass1 st cr un).1.rooms,
      r ∈ st.rooms ∨ (r.disable_random_extra = false
        ∧ r.optout_random_extra = false) := by
  intro un
  induction un with
  | nil =>
    intro st cr r hr
    exact Or.inl hr
  | cons ord rest ih =>
    intro st cr r hr
    unfold pass1 at hr
    cases hstep : create_or_fill_rooms st cr ord with
    | mk st1 rest2 =>
      rw [hstep] at hr
      cases rest2 with
      | mk cr1 res =>
        have hstepflags : ∀ r2 ∈ st1.rooms, r2 ∈ st.rooms
            ∨ (r2.disable_random_extra = false ∧ r2.optout_random_extra = false) := by
          intro r2 h2
          have := create_or_fill_rooms_flags st cr ord r2
          rw [hstep] at this
          exact this h2
        cases res with
        | some rc =>
          dsimp only at hr
          rcases ih (addOrderRoom st1 ord.id rc.1.id rc.2) cr1 r hr with h1 | h1
          · exact hstepflags r h1
          · exact Or.inr h1
        | none =>
          dsimp only at hr
          rcases ih st1 cr1 r hr with h1 | h1
          · exact hstepflags r h1
          · exact Or.inr h1

/-- C4: every membership created during pass 3 targets a room of the
pass-3 snapshot that has `disable_random_extra` clear and — when the
event's host-control setting is enabled — `optout_random_extra` clear:
pass 3 never assigns an order to an opted-out room.  (A pre-existing
opted-out room enters the pass-3 snapshot only while it still has
normal capacity, but any such room would already have absorbed the
order during pass 2, whose working list retains every room with normal
capacity; rooms created by pass 1 always carry cleared flags.) -/
theorem pass3_never_assigns_opted_out (st0 : EventState) (m : OrderRoom)
    (hm : m ∈ (randStage3 st0).1.orderRooms)
    (hnew : m ∉ (randStage2 st0).1.orderRooms) :
    ∃ r ∈ pass3Snapshot (randStage2 st0).1, m.roomId = r.id
      ∧ m.is_admin = false
      ∧ r.disable_random_extra = false
      ∧ (st0.hostRandomControl = true → r.optout_random_extra = false) := by
  unfold randStage3 at hm
  obtain ⟨ord, hord, r, hr, ho, hrid, hadm, hdef⟩ :=
    fillPass_new_members true (randStage2 st0).2.2 (randStage2 st0).1
      (pass3Snapshot (randStage2 st0).1) m hm hnew
  have hext01 : RandExtends st0 (randStage1 st0).1 :=
    pass1_extends (unassignedOrders st0) st0 []
  have hext12 : RandExtends (randStage1 st0).1 (randStage2 st0).1 :=
    fillPass_extends false (randStage1 st0).2.2 (randStage1 st0).1
      (pass2Snapshot st0)
  have hhost : (randStage2 st0).1.hostRandomControl = st0.hostRandomControl := by
    rw [hext12.host_eq, hext01.host_eq]
  have hrooms2 : (randStage2 st0).1.rooms = (randStage1 st0).1.rooms :=
    fillPass_rooms false (randStage1 st0).2.2 (randStage1 st0).1
      (pass2Snapshot st0)
  obtain ⟨hrin2, hcap3⟩ := List.mem_filter.mp hr
  have hflag : (r.disable_random_extra
      || ((randStage2 st0).1.hostRandomControl && r.optout_random_extra)) = false := by
    cases hcontra : (r.disable_random_extra
        || ((randStage2 st0).1.hostRandomControl && r.optout_random_extra)) with
    | false => rfl
    | true =>
      exfalso
      rw [hcontra, Bool.not_true] at hcap3
      have hrin1 : r ∈ (randStage1 st0).1.rooms := by
        rw [hrooms2] at hrin2
        exact hrin2
      have hrin0 : r ∈ st0.rooms := by
        rcases pass1_flags (unassignedOrders st0) st0 [] r hrin1 with h1 | h1
        · exact h1
        · rw [h1.1, h1.2, Bool.and_false, Bool.or_false] at hcontra
          exact (Bool.false_ne_true hcontra).elim
      have hinv : ∀ r2 ∈ st0.rooms,
          Room.has_capacityExtra (randStage1 st0).1 r2 false = true →
          r2 ∈ pass2Snapshot st0 := by
        intro r2 h2 hc2
        exact List.mem_filter.mpr ⟨h2, has_capacityExtra_of_later hext01 r2 false hc2⟩
      have hdef1 : (orderDefinitions (randStage1 st0).1 ord).any
          (fun d => d.id == r.definitionId) = true := by
        rw [orderDefinitions_ext hext12] at hdef
        exact hdef
      have hnocap := fillPass_fail_no_cap st0.rooms (randStage1 st0).2.2
        (randStage1 st0).1 (pass2Snapshot st0) hinv ord hord r hrin0 hdef1
      exact Bool.false_ne_true (hnocap.symm.trans hcap3)
  rcases Bool.or_eq_false_iff.mp hflag with ⟨hdis, hopt⟩
  refine ⟨r, hr, hrid, hadm, hdis, ?_⟩
  intro hhost0
  rw [hhost, hhost0, Bool.true_and] at hopt
  exact hopt

def rC4w : Room :=
  { id := 2, definitionId := 1, name := "R", password := "p",
    disable_random_extra := false, optout_random_extra := false }

/-- A room with `capacity = 1`, `extra_capacity = 1`, already holding
one paid occupant, plus one unassigned paid order: the order can only be
placed during pass 3, into the room's extra capacity. -/
def stC4w : EventState :=
  { definitions := [{ id := 1, name := "A", items := [10], capacity := 1,
                      extra_capacity := 1, max_rooms := 1 }],
    rooms := [rC4w],
    orderRooms := [{ id := 4, order := some 3, cartId := none, roomId := 2,
                     is_admin := true }],
    orders := [{ id := 3, code := "IN", status := OrderStatus.paid, items := [10] },
               { id := 5, code := "NEW", status := OrderStatus.paid, items := [10] }],
    cartPositions := [], now := 0, hostRandomControl := false, nextId := 6 }

def mC4w : OrderRoom :=
  { id := 6, order := some 5, cartId := none, roomId := 2, is_admin := false }

/-- Witness for C4: in `stC4w` order 5 is assigned during pass 3 (its
membership `mC4w` exists after pass 3 but not after pass 2), and the
theorem yields that the target room is un-opted-out. -/
theorem pass3_never_assigns_opted_out_witness :
    mC4w ∈ (randStage3 stC4w).1.orderRooms
    ∧ mC4w ∉ (randStage2 stC4w).1.orderRooms
    ∧ ∃ r ∈ pass3Snapshot (randStage2 stC4w).1, mC4w.roomId = r.id
        ∧ mC4w.is_admin = false
        ∧ r.disable_random_extra = false
        ∧ (stC4w.hostRandomControl = true → r.optout_random_extra = false) :=
  ⟨by decide, by decide,
   pass3_never_assigns_opted_out stC4w mC4w (by decide) (by decide)⟩

/-- A membership list in which the room `rid` has at least one
membership, the first one is admin-flagged, and all later ones are not:
the creator of the room is its only admin. -/
def firstAdminOnly (l : List OrderRoom) (rid : Nat) : Prop :=
  ∃ x xs, l.filter (fun m => m.roomId == rid) = x :: xs
    ∧ x.is_admin = true ∧ ∀ y ∈ xs, y.is_admin = false

theorem firstAdminOnly_append_other {l : List OrderRoom} {rid : Nat}
    (h : firstAdminOnly l rid) (mem : OrderRoom)
    (hne : (mem.roomId == rid) = false) :
    firstAdminOnly (l ++ [mem]) rid := by
  obtain ⟨x, xs, hf, hx, hxs⟩ := h
  refine ⟨x, xs, ?_, hx, hxs⟩
  rw [List.filter_append, hf, List.filter_cons_of_neg (by simp [hne]),
    List.filter_nil, List.append_nil]

theorem firstAdminOnly_append_nonadmin {l : List OrderRoom} {rid : Nat}
    (h : firstAdminOnly l rid) (mem : OrderRoom)
    (hadm : mem.is_admin = false) :
    firstAdminOnly (l ++ [mem]) rid := by
  obtain ⟨x, xs, hf, hx, hxs⟩ := h
  by_cases hne : (mem.roomId == rid) = true
  · refine ⟨x, xs ++ [mem], ?_, hx, ?_⟩
    · rw [List.filter_append, hf, List.filter_cons_of_pos (by simp [hne]),
        List.filter_nil, List.cons_append]
    · intro y hy
      rcases List.mem_append.mp hy with h1 | h1
      · exact hxs y h1
      · rw [List.mem_singleton] at h1
        subst h1
        exact hadm
  · exact firstAdminOnly_append_other ⟨x, xs, hf, hx, hxs⟩ mem
      (Bool.eq_false_iff.mpr hne)

theorem firstAdminOnly_fresh {l : List OrderRoom} {rid : Nat}
    (hempty : l.filter (fun m => m.roomId == rid) = []) (mem : OrderRoom)
    (hmem : (mem.roomId == rid) = true) (hadm : mem.is_admin = true) :
    firstAdminOnly (l ++ [mem]) rid := by
  refine ⟨mem, [], ?_, hadm, by simp⟩
  rw [List.filter_append, hempty, List.filter_cons_of_pos (by simp [hmem]),
    List.filter_nil, List.nil_append]

/-- Case analysis of a successful `create_or_fill_rooms` step: either an
earlier pass-created room was found (flag `false`) or a brand-new room
with primary key `st.nextId` was created (flag `true`). -/
theorem create_or_fill_rooms_some {st : EventState} {cr : List Room}
    {ord : Order} {st1 : EventState} {cr1 : List Room} {r : Room} {b : Bool}
    (h : create_or_fill_rooms st cr ord = (st1, cr1, some (r, b))) :
    (b = false ∧ st1 = st ∧ r ∈ cr ∧ ∀ x ∈ cr1, x ∈ cr)
    ∨ (b = true ∧ r.id = st.nextId
       ∧ st1 = { st with rooms := st.rooms ++ [r], nextId := st.nextId + 1 }
       ∧ (∀ x ∈ cr1, x ∈ cr ∨ x = r)) := by
  unfold create_or_fill_rooms at h
  cases hscan : scanRooms st (orderDefinitions st ord) false cr with
  | mk pruned res =>
    rw [hscan] at h
    cases res with
    | some r2 =>
      dsimp only at h
      simp only [Prod.mk.injEq, Option.some.injEq] at h
      obtain ⟨hst, hcr, hr2, hb⟩ := h
      subst hst
      subst hcr
      subst hr2
      subst hb
      refine Or.inl ⟨rfl, rfl, ?_, ?_⟩
      · exact (scanRooms_found st (orderDefinitions st ord) false cr r2
          (congrArg Prod.snd hscan)).1
      · intro x hx
        exact scanRooms_sub st (orderDefinitions st ord) false cr x
          (by rw [hscan]; exact hx)
    | none =>
      dsimp only at h
      cases hfind : (orderDefinitions st ord).find? (fun d =>
          RoomDefinition.is_available st d) with
      | some d =>
        rw [hfind] at h
        dsimp only at h
        simp only [Prod.mk.injEq, Option.some.injEq] at h
        obtain ⟨hst, hcr, hr2, hb⟩ := h
        subst hst
        subst hcr
        subst hr2
        subst hb
        refine Or.inr ⟨rfl, rfl, rfl, ?_⟩
        intro x hx
        rcases List.mem_append.mp hx with h1 | h1
        · exact Or.inl (scanRooms_sub st (orderDefinitions st ord) false cr x
            (by rw [hscan]; exact h1))
        · rw [List.mem_singleton] at h1
          exact Or.inr h1
      | none =>
        rw [hfind] at h
        simp at h

theorem create_or_fill_rooms_none {st : EventState} {cr : List Room}
    {ord : Order} {st1 : EventState} {cr1 : List Room}
    (h : create_or_fill_rooms st cr ord = (st1, cr1, none)) :
    st1 = st ∧ ∀ x ∈ cr1, x ∈ cr := by
  unfold create_or_fill_rooms at h
  cases hscan : scanRooms st (orderDefinitions st ord) false cr with
  | mk pruned res =>
    rw [hscan] at h
    cases res with
    | some r2 => simp at h
    | none =>
      dsimp only at h
      cases hfind : (orderDefinitions st ord).find? (fun d =>
          RoomDefinition.is_available st d) with
      | some d =>
        rw [hfind] at h
        simp at h
      | none =>
        rw [hfind] at h
        simp only [Prod.mk.injEq] at h
        obtain ⟨hst, hcr, -⟩ := h
        subst hst
        subst hcr
        exact ⟨rfl, fun x hx => scanRooms_sub st (orderDefinitions st ord)
          false cr x (by rw [hscan]; exact hx)⟩

theorem addOrderRoom_orderRooms (st : EventState) (oid rid : Nat) (a : Bool) :
    (addOrderRoom st oid rid a).orderRooms = st.orderRooms ++
      [{ id := st.nextId, order := some oid, cartId := none, roomId := rid, is_admin := a }] := rfl

theorem addOrderRoom_rooms (st : EventState) (oid rid : Nat) (a : Bool) :
    (addOrderRoom st oid rid a).rooms = st.rooms := rfl

theorem addOrderRoom_nextId (st : EventState) (oid rid : Nat) (a : Bool) :
    (addOrderRoom st oid rid a).nextId = st.nextId + 1 := rfl

/-- The pass-1 working invariant (views.py:138-144): primary keys stay
below the fresh-key counter, the pass's working set of created rooms
lives in the stored rooms with keys at or above the starting counter,
and every room keyed at or above the starting counter has exactly its
first membership admin-flagged. -/
theorem pass1_admin_inv (st0 : EventState) :
    ∀ (un : List Order) (st : EventState) (cr : List Room),
      (∀ r ∈ st.rooms, r.id < st.nextId) →
      (∀ m ∈ st.orderRooms, m.roomId < st.nextId) →
      st0.nextId ≤ st.nextId →
      (∀ r ∈ cr, r ∈ st.rooms ∧ st0.nextId ≤ r.id) →
      (∀ r ∈ st.rooms, st0.nextId ≤ r.id → firstAdminOnly st.orderRooms r.id) →
      ∀ r ∈ (pass1 st cr un).1.rooms,
        (r ∈ st.rooms ∨ st0.nextId ≤ r.id)
        ∧ (st0.nextId ≤ r.id →
           firstAdminOnly (pass1 st cr un).1.orderRooms r.id) := by
  intro un
  induction un with
  | nil =>
    intro st cr hrlt hmlt hge hcr hadm r hr
    exact ⟨Or.inl hr, fun hid => hadm r hr hid⟩
  | cons ord rest ih =>
    intro st cr hrlt hmlt hge hcr hadm r hr
    unfold pass1 at hr ⊢
    cases hstep : create_or_fill_rooms st cr ord with
    | mk st1 rest2 =>
      rw [hstep] at hr
      cases rest2 with
      | mk cr1 res =>
        cases res with
        | some rc =>
          obtain ⟨room, b⟩ := rc
          dsimp only at hr ⊢
          rcases create_or_fill_rooms_some hstep with
            ⟨hb, hst1, hroomcr, hcr1⟩ | ⟨hb, hid, hst1, hcr1⟩
          · subst hb
            rw [hst1] at hr ⊢
            have hroomst := (hcr room hroomcr).1
            have inv1 : ∀ r2 ∈ (addOrderRoom st ord.id room.id false).rooms,
                r2.id < (addOrderRoom st ord.id room.id false).nextId := by
              rw [addOrderRoom_rooms, addOrderRoom_nextId]
              exact fun r2 h2 => Nat.lt_succ_of_lt (hrlt r2 h2)
            have inv2 : ∀ m ∈ (addOrderRoom st ord.id room.id false).orderRooms,
                m.roomId < (addOrderRoom st ord.id room.id false).nextId := by
              rw [addOrderRoom_orderRooms, addOrderRoom_nextId]
              intro m hm
              rcases List.mem_append.mp hm with h1 | h1
              · exact Nat.lt_succ_of_lt (hmlt m h1)
              · rw [List.mem_singleton] at h1
                subst h1
                exact Nat.lt_succ_of_lt (hrlt room hroomst)
            have inv3 : st0.nextId ≤ (addOrderRoom st ord.id room.id false).nextId := by
              rw [addOrderRoom_nextId]
              exact Nat.le_succ_of_le hge
            have inv4 : ∀ r2 ∈ cr1, r2 ∈ (addOrderRoom st ord.id room.id false).rooms
                ∧ st0.nextId ≤ r2.id := by
              rw [addOrderRoom_rooms]
              exact fun r2 h2 => hcr r2 (hcr1 r2 h2)
            have inv5 : ∀ r2 ∈ (addOrderRoom st ord.id room.id false).rooms,
                st0.nextId ≤ r2.id →
                firstAdminOnly (addOrderRoom st ord.id room.id false).orderRooms r2.id := by
              rw [addOrderRoom_rooms, addOrderRoom_orderRooms]
              intro r2 h2 hid2
              exact firstAdminOnly_append_nonadmin (hadm r2 h2 hid2) _ rfl
            have hres := ih (addOrderRoom st ord.id room.id false) cr1
              inv1 inv2 inv3 inv4 inv5 r hr
            refine ⟨?_, hres.2⟩
            rcases hres.1 with h1 | h1
            · rw [addOrderRoom_rooms] at h1
              exact Or.inl h1
            · exact Or.inr h1
          · subst hb
            rw [hst1] at hr ⊢
            have inv1 : ∀ r2 ∈ (addOrderRoom
                { st with rooms := st.rooms ++ [room], nextId := st.nextId + 1 }
                ord.id room.id true).rooms,
                r2.id < (addOrderRoom
                { st with rooms := st.rooms ++ [room], nextId := st.nextId + 1 }
                ord.id room.id true).nextId := by
              rw [addOrderRoom_rooms, addOrderRoom_nextId]
              intro r2 h2
              rcases List.mem_append.mp h2 with h1 | h1
              · exact Nat.lt_succ_of_lt (Nat.lt_succ_of_lt (hrlt r2 h1))
              · rw [List.mem_singleton] at h1
                subst h1
                rw [hid]
                exact Nat.lt_succ_of_lt (Nat.lt_succ_self _)
            have inv2 : ∀ m ∈ (addOrderRoom
                { st with rooms := st.rooms ++ [room], nextId := st.nextId + 1 }
                ord.id room.id true).orderRooms,
                m.roomId < (addOrderRoom
                { st with rooms := st.rooms ++ [room], nextId := st.nextId + 1 }
                ord.id room.id true).nextId := by
              rw [addOrderRoom_orderRooms, addOrderRoom_nextId]
              intro m hm
              rcases List.mem_append.mp hm with h1 | h1
              · exact Nat.lt_succ_of_lt (Nat.lt_succ_of_lt (hmlt m h1))
              · rw [List.mem_singleton] at h1
                subst h1
                rw [hid]
                exact Nat.lt_succ_of_lt (Nat.lt_succ_self _)
            have inv3 : st0.nextId ≤ (addOrderRoom
                { st with rooms := st.rooms ++ [room], nextId := st.nextId + 1 }
                ord.id room.id true).nextId := by
              rw [addOrderRoom_nextId]
              exact Nat.le_succ_of_le (Nat.le_succ_of_le hge)
            have inv4 : ∀ r2 ∈ cr1, r2 ∈ (addOrderRoom
                { st with rooms := st.rooms ++ [room], nextId := st.nextId + 1 }
                ord.id room.id true).rooms ∧ st0.nextId ≤ r2.id := by
              rw [addOrderRoom_rooms]
              intro r2 h2
              rcases hcr1 r2 h2 with h1 | h1
              · exact ⟨List.mem_append.mpr (Or.inl (hcr r2 h1).1), (hcr r2 h1).2⟩
              · subst h1
                refine ⟨List.mem_append.mpr (Or.inr (List.mem_singleton.mpr rfl)), ?_⟩
                rw [hid]
                exact hge
            have inv5 : ∀ r2 ∈ (addOrderRoom
                { st with rooms := st.rooms ++ [room], nextId := st.nextId + 1 }
                ord.id room.id true).rooms,
                st0.nextId ≤ r2.id →
                firstAdminOnly (addOrderRoom
                { st with rooms := st.rooms ++ [room], nextId := st.nextId + 1 }
                ord.id room.id true).orderRooms r2.id := by
              rw [addOrderRoom_rooms, addOrderRoom_orderRooms]
              intro r2 h2 hid2
              rcases List.mem_append.mp h2 with h1 | h1
              · refine firstAdminOnly_append_other (hadm r2 h1 hid2) _ ?_
                have hne : room.id ≠ r2.id := by
                  rw [hid]
                  exact (Nat.ne_of_lt (hrlt r2 h1)).symm
                exact beq_eq_false_iff_ne.mpr hne
              · rw [List.mem_singleton] at h1
                subst h1
                have hempty : st.orderRooms.filter (fun m => m.roomId == r2.id) = [] := by
                  rw [List.filter_eq_nil_iff]
                  intro m hm
                  simp only [beq_iff_eq]
                  rw [hid]
                  exact Nat.ne_of_lt (hmlt m hm)
                exact firstAdminOnly_fresh hempty _ (beq_self_eq_true _) rfl
            have hres := ih (addOrderRoom
              { st with rooms := st.rooms ++ [room], nextId := st.nextId + 1 }
              ord.id room.id true) cr1 inv1 inv2 inv3 inv4 inv5 r hr
            refine ⟨?_, hres.2⟩
            rcases hres.1 with h1 | h1
            · rw [addOrderRoom_rooms] at h1
              rcases List.mem_append.mp h1 with h2 | h2
              · exact Or.inl h2
              · rw [List.mem_singleton] at h2
                subst h2
                refine Or.inr ?_
                rw [hid]
                exact hge
            · exact Or.inr h1
        | none =>
          dsimp only at hr ⊢
          obtain ⟨hst1, hcr1⟩ := create_or_fill_rooms_none hstep
          rw [hst1] at hr ⊢
          exact ih st cr1 hrlt hmlt hge
            (fun r2 h2 => hcr r2 (hcr1 r2 h2)) hadm r hr

/-- C9: after pass 1, every room created during the pass (any stored
room that was not present before, given well-formed keys) has its first
membership admin-flagged — the order for which the room was created —
and all of its later memberships non-admin — the orders joined into the
already-created room. -/
theorem pass1_creator_is_admin (st0 : EventState)
    (h1 : ∀ r ∈ st0.rooms, r.id < st0.nextId)
    (h2 : ∀ m ∈ st0.orderRooms, m.roomId < st0.nextId)
    (r : Room) (hr : r ∈ (randStage1 st0).1.rooms) (hnew : r ∉ st0.rooms) :
    firstAdminOnly (randStage1 st0).1.orderRooms r.id := by
  unfold randStage1 at hr ⊢
  have hres := pass1_admin_inv st0 (unassignedOrders st0) st0 []
    h1 h2 (Nat.le_refl _) (by simp)
    (fun r2 hmem hge => absurd (h1 r2 hmem) (Nat.not_lt.mpr hge))
    r hr
  rcases hres.1 with hin | hge
  · exact absurd hin hnew
  · exact hres.2 hge

/-- Two unassigned paid orders and a definition with `max_rooms = 1`:
pass 1 creates one room for the first order and joins the second. -/
def stC9 : EventState :=
  { definitions := [{ id := 1, name := "A", items := [10], capacity := 2,
                      extra_capacity := 0, max_rooms := 1 }],
    rooms := [], orderRooms := [],
    orders := [{ id := 2, code := "O1", status := OrderStatus.paid, items := [10] },
               { id := 3, code := "O2", status := OrderStatus.paid, items := [10] }],
    cartPositions := [], now := 0, hostRandomControl := false, nextId := 4 }

def rC9 : Room :=
  { id := 4, definitionId := 1, name := genName 4, password := genName 4,
    disable_random_extra := false, optout_random_extra := false }

/-- Witness for C9: in `stC9` pass 1 creates room `rC9` for order 2
(admin) and joins order 3 (non-admin); the room's membership list has an
admin head and a non-admin tail. -/
theorem pass1_creator_is_admin_witness :
    rC9 ∈ (randStage1 stC9).1.rooms
    ∧ rC9 ∉ stC9.rooms
    ∧ firstAdminOnly (randStage1 stC9).1.orderRooms rC9.id :=
  ⟨by decide, by decide,
   pass1_creator_is_admin stC9 (by decide) (by decide) rC9 (by decide) (by decide)⟩
